import Mathlib

/-!
Shallow embedding of the kvpdemo key-value server sources
(`src/keyregistry.c`, `src/server.c`) together with theorems checking the
repository's specification claims against it.

Modelling conventions:
* A C byte string is a `List Char`; the key-parsing loop that reads the NUL
  terminator one past the end of the current string is modelled by the list
  running out.
* Pointers that may be NULL (the parser's value out-parameter, whose memory
  is allocated only when the value is nonempty) are `Option (List Char)`.
* `uint8_t` / `uint16_t` arithmetic is `Nat` arithmetic reduced `% 256` /
  `% 65536` exactly where the C code narrows.
-/

/-- Return code `KREG_OK` of keyregistry.h. -/
def KREG_OK : Nat := 0

/-- Return code `KREG_ERR_REG_OPEN` of keyregistry.h. -/
def KREG_ERR_REG_OPEN : Nat := 1

/-- Return code `KREG_KEY_EMPTY` of keyregistry.h. -/
def KREG_KEY_EMPTY : Nat := 2

/-- Return code `KREG_KEY_INVALID` of keyregistry.h. -/
def KREG_KEY_INVALID : Nat := 3

/-- Return code `KREG_KEY_TOO_LONG` of keyregistry.h. -/
def KREG_KEY_TOO_LONG : Nat := 4

/-- Return code `KREG_KEY_NOT_FOUND` of keyregistry.h. -/
def KREG_KEY_NOT_FOUND : Nat := 5

/-- Return code `KREG_VAL_TOO_LONG` of keyregistry.h. -/
def KREG_VAL_TOO_LONG : Nat := 6

/-- Return code `KREG_KEY_EXISTS` of keyregistry.h (strict mode only). -/
def KREG_KEY_EXISTS : Nat := 7

/-- Maximum key length `KREG_MAX_KEY_LEN` of keyregistry.h. -/
def KREG_MAX_KEY_LEN : Nat := 16

/-- Maximum value length `KREG_MAX_VAL_LEN` of keyregistry.h. -/
def KREG_MAX_VAL_LEN : Nat := 32

/-- Character class of `isalpha(c) || isdigit(c)` in the default C locale. -/
def isAlnumC (c : Char) : Bool :=
  decide ('A' ≤ c ∧ c ≤ 'Z') || decide ('a' ≤ c ∧ c ≤ 'z') ||
    decide ('0' ≤ c ∧ c ≤ '9')

/-- ASCII `tolower`, applied to the first three command bytes in server.c. -/
def tolowerC (c : Char) : Char :=
  if 'A' ≤ c ∧ c ≤ 'Z' then Char.ofNat (c.toNat + 32) else c

/-- Outcome of `parseKeyValue`: either the key and the value out-parameter
(`none` models the NULL left in place when the value is empty) or an error
kind together with the 1-based `errPos`, a `uint16_t` hence reduced
mod 65536. -/
inductive ParseResult where
  | ok : List Char → Option (List Char) → ParseResult
  | err : Nat → Nat → ParseResult
deriving DecidableEq

/-- One iteration of the trailing-terminator loop of `parseKeyValue`
(keyregistry.c lines 179-186): examine `linePtr[len - 1]` and, when it is LF
or CR, overwrite it with NUL and decrement `len`.  When `len = 0` the C code
examines the byte at index `-1` of the current string; the second component
records that this out-of-range examination happened.  At both call sites of
the parser that byte is a skipped leading space or the third command byte,
never CR or LF, so the strip does not fire there and the string is left
unchanged. -/
def stripStep (s : List Char) (oob : Bool) : List Char × Bool :=
  match s.getLast? with
  | none => (s, true)
  | some c => if c = '\n' ∨ c = '\r' then (s.dropLast, oob) else (s, oob)

/-- Net effect of one `stripStep` on the string alone. -/
def strip1 (s : List Char) : List Char := (stripStep s false).1

/-- Net effect of both iterations of the trailing-terminator loop. -/
def strip2 (s : List Char) : List Char := strip1 (strip1 s)

/-- Value part of `parseKeyValue` (keyregistry.c lines 247-268), entered
after the separating space found at 0-based index `pos` of the stripped
line `s`; `p` is the number of removed leading spaces and `keyLen` the key
length.  `valLen` is a `uint8_t`, so the exact remaining length
`len - (linePtr - start)` is reduced mod 256; `memcpy` then copies `valLen`
bytes. -/
def valuePhase (p : Nat) (s : List Char) (pos keyLen : Nat) : ParseResult :=
  let valLen := (s.length - (pos + 1)) % 256
  if valLen > KREG_MAX_VAL_LEN then
    .err KREG_VAL_TOO_LONG ((p + pos + 1 + KREG_MAX_VAL_LEN + 1) % 65536)
  else if valLen ≠ 0 then
    .ok (s.take keyLen) (some ((s.drop (pos + 1)).take valLen))
  else
    .ok (s.take keyLen) none

/-- Key loop of `parseKeyValue` (keyregistry.c lines 193-245).  `s` is the
stripped line, the remaining suffix is scanned at 0-based index `pos`;
`keyLen` counts the key characters seen so far and `p` is the number of
removed leading spaces, so `linePtr - line + 1 = p + pos + 1`.  Reaching the
end of the list is the NUL terminator; an embedded NUL byte takes the same
branch, as in the C. -/
def keyLoop (p : Nat) (s : List Char) (pos keyLen : Nat) : List Char → ParseResult
  | [] =>
      if keyLen = 0 then .err KREG_KEY_EMPTY ((p + pos + 1) % 65536)
      else .ok (s.take keyLen) none
  | c :: rem =>
      if isAlnumC c then
        if keyLen + 1 > KREG_MAX_KEY_LEN then
          .err KREG_KEY_TOO_LONG ((p + pos + 1) % 65536)
        else keyLoop p s (pos + 1) (keyLen + 1) rem
      else if c = ' ' then valuePhase p s pos keyLen
      else if c = '\x00' then
        (if keyLen = 0 then .err KREG_KEY_EMPTY ((p + pos + 1) % 65536)
         else .ok (s.take keyLen) none)
      else .err KREG_KEY_INVALID ((p + pos + 1) % 65536)

/-- Core of `parseKeyValue` after removal of `p` leading spaces, the
remaining string being `rest`: the two strip iterations followed by the key
loop. -/
def parseCore (p : Nat) (rest : List Char) : ParseResult × Bool :=
  let t1 := stripStep rest false
  let t2 := stripStep t1.1 t1.2
  (keyLoop p t2.1 0 0 t2.1, t2.2)

/-- `parseKeyValue` (keyregistry.c lines 162-269) on the line's byte list,
paired with the flag recording whether the trailing strip examined an index
outside the string. -/
def parseKVAux (line : List Char) : ParseResult × Bool :=
  parseCore ((line.takeWhile (fun c => c = ' ')).length)
            (line.dropWhile (fun c => c = ' '))

/-- `parseKeyValue`: the parse outcome alone. -/
def parseKeyValue (line : List Char) : ParseResult := (parseKVAux line).1

/-- The registry: the linked list of key-value pairs in insertion order.
Keys and values are the exact byte sequences the C code copies with
`memcpy`; `strcmp`-based lookup is modelled as equality of those
sequences. -/
abbrev Store := List (List Char × Option (List Char))

/-- `searchKey` (keyregistry.c lines 52-66): the first entry whose key
compares equal. -/
def searchKey (key : List Char) : Store → Option (List Char × Option (List Char))
  | [] => none
  | kv :: rest => if kv.1 = key then some kv else searchKey key rest

/-- In-place update `newKey->value = value` of `storeKey` (line 109): the
first entry holding `key` gets value `v`. -/
def overwriteFirst (key : List Char) (v : Option (List Char)) : Store → Store
  | [] => []
  | kv :: rest =>
      if kv.1 = key then (kv.1, v) :: rest else kv :: overwriteFirst key v rest

/-- `storeKey` (keyregistry.c lines 100-136), parameterised by the
build-time policy `KREG_ALLOW_UPDATE` (`allowUpdate = false` is the strict
build, the default).  New pairs are appended at the tail (`lastKey`),
preserving insertion order; `malloc` is modelled as always succeeding. -/
def storeKey (allowUpdate : Bool) (key : List Char) (v : Option (List Char))
    (s : Store) : Nat × Store :=
  match searchKey key s with
  | some _ =>
      if allowUpdate then (KREG_OK, overwriteFirst key v s)
      else (KREG_KEY_EXISTS, s)
  | none => (KREG_OK, s ++ [(key, v)])

/-- `readKey` (keyregistry.c lines 76-90); `v0` is the prior contents of the
value out-parameter, which the C function leaves untouched when the key is
missing. -/
def readKey (key : List Char) (s : Store) (v0 : Option (List Char)) :
    Nat × Option (List Char) :=
  match searchKey key s with
  | none => (KREG_KEY_NOT_FOUND, v0)
  | some kv => (KREG_OK, kv.2)

/-- Result of the loader over the file's line list: `ok` with the final
store, or the first failure's error kind, `lineNr` and `errPos` (both
`uint16_t` out-parameters) together with the store built from the preceding
lines, which `KREG_ReadRegistryFile` leaves in the global list. -/
inductive LoadResult where
  | ok : Store → LoadResult
  | err : Nat → Nat → Nat → Store → LoadResult
deriving DecidableEq

/-- Empty-line test of the loader (keyregistry.c line 310): only the first
character of the line is examined. -/
def lineSkipped (l : List Char) : Bool :=
  match l with
  | [] => false
  | c :: _ => decide (c = '\r' ∨ c = '\n')

/-- Line loop of `KREG_ReadRegistryFile` (keyregistry.c lines 306-341) over
the lines `getline` would deliver; `cnt` is the `uint16_t` line counter so
far.  A failing parse aborts the load at once with the incremented counter;
the store keeps everything inserted by preceding lines (`storeKey`'s return
value is ignored at line 334, so a strict-mode duplicate line is silently
dropped). -/
def loadLines (allowUpdate : Bool) (s : Store) (cnt : Nat) :
    List (List Char) → LoadResult
  | [] => .ok s
  | l :: ls =>
      let cnt' := (cnt + 1) % 65536
      if lineSkipped l then loadLines allowUpdate s cnt' ls
      else
        match parseKeyValue l with
        | .err kind pos => .err kind cnt' pos s
        | .ok k v => loadLines allowUpdate (storeKey allowUpdate k v s).2 cnt' ls

/-- `KREG_ReadRegistryFile` (keyregistry.c lines 291-347) on an already
opened file, starting from registry state `s`. -/
def readRegistryLines (allowUpdate : Bool) (s : Store)
    (lines : List (List Char)) : LoadResult :=
  loadLines allowUpdate s 0 lines

/-- Rendering of a `char *` by `sprintf`'s `%s`: glibc prints a NULL pointer
as the text between the braces of `[(null)]`; ISO C leaves `%s` on NULL
undefined. -/
def renderVal : Option (List Char) → List Char
  | some l => l
  | none => "(null)".toList

/-- `createErrMsgToClient` (server.c lines 79-105).  The `errPos` parameter
of the C function is unused by every branch and omitted here; the
misspelling `regisry` is the source's own. -/
def errMsgFor (key : Option (List Char)) (kregErr : Nat) : List Char :=
  if kregErr = KREG_KEY_EMPTY then "Key has not been provided\n".toList
  else if kregErr = KREG_KEY_INVALID then
    "Key is invalid ... keys can contain digits and letters only\n".toList
  else if kregErr = KREG_KEY_TOO_LONG then
    "Key is too long ... max key length is 16\n".toList
  else if kregErr = KREG_KEY_NOT_FOUND then
    "Key [".toList ++ renderVal key ++ "] not found in regisry\n".toList
  else if kregErr = KREG_KEY_EXISTS then
    "Key [".toList ++ renderVal key ++
      "] already exists, updating keys are not allowed\n".toList
  else if kregErr = KREG_VAL_TOO_LONG then
    "Value is too long ... max value length is 32\n".toList
  else "Server Error\n".toList

/-- `KREG_GetKey` (keyregistry.c lines 361-371): parse, then look the key
up; returns the C return value with the key and value out-parameters.  The
value out-parameter is first filled by the parser and then overwritten by
`readKey` on a hit. -/
def kregGetKey (s : Store) (str : List Char) :
    Nat × Option (List Char) × Option (List Char) :=
  match parseKeyValue str with
  | .ok k v =>
      let r := readKey k s v
      (r.1, some k, r.2)
  | .err kind _ => (kind, none, none)

/-- `KREG_PutKey` (keyregistry.c lines 386-396): parse, then store. -/
def kregPutKey (allowUpdate : Bool) (s : Store) (str : List Char) :
    Nat × Store × Option (List Char) × Option (List Char) :=
  match parseKeyValue str with
  | .ok k v =>
      let r := storeKey allowUpdate k v s
      (r.1, r.2, some k, v)
  | .err kind _ => (kind, s, none, none)

/-- `processClientMessage` (server.c lines 124-183): the response written to
the socket (`none` for `bye`, which writes nothing), the store after the
command, and whether the connection is to be closed (`removeClient`).  The
first three bytes are lowercased in place only when the message has at least
three bytes; the remainder keeps its case.  Success responses carry the
terminating newline of the wire protocol. -/
def processClientMessage (allowUpdate : Bool) (s : Store) (message : List Char) :
    Option (List Char) × Store × Bool :=
  let m := if 3 ≤ message.length
           then (message.take 3).map tolowerC ++ message.drop 3
           else message
  if m.take 3 = ['p', 'u', 't'] then
    let r := kregPutKey allowUpdate s (m.drop 3)
    if r.1 = KREG_OK then
      (some (['['] ++ renderVal r.2.2.1 ++ "] <= [".toList ++
        renderVal r.2.2.2 ++ "]\n".toList), r.2.1, false)
    else (some (errMsgFor r.2.2.1 r.1), r.2.1, false)
  else if m.take 3 = ['g', 'e', 't'] then
    let r := kregGetKey s (m.drop 3)
    if r.1 = KREG_OK then
      (some (['['] ++ renderVal r.2.1 ++ "] => [".toList ++
        renderVal r.2.2 ++ "]\n".toList), s, false)
    else (some (errMsgFor r.2.1 r.1), s, false)
  else if m.take 3 = ['b', 'y', 'e'] then (none, s, true)
  else (some ("???\n".toList), s, false)

/-- The `switch` on the loader's result in `main` (server.c lines 437-474):
only `KREG_OK` reaches `serverTask`; every other outcome, including the
defensive default, exits before any connection is served. -/
def servesClients : Nat → Bool
  | 0 => true
  | _ => false

/-- First three bytes of a message lowercased, the condition under which the
dispatcher recognises a command; for messages shorter than three bytes this
is shorter than every command word, matching the failing `strncmp`. -/
def low3 (m : List Char) : List Char := (m.take 3).map tolowerC

/-- Modelled from the words of claim C4: remove at most one trailing LF,
then at most one trailing CR. -/
def dropLastIf (c : Char) (l : List Char) : List Char :=
  match l.getLast? with
  | some d => if d = c then l.dropLast else l
  | none => l

/-- Modelled from the words of claim C4, order LF then CR. -/
def claimStripLFthenCR (l : List Char) : List Char :=
  dropLastIf '\r' (dropLastIf '\n' l)

/-- Modelled from the words of claim C4, order CR then LF. -/
def claimStripCRthenLF (l : List Char) : List Char :=
  dropLastIf '\n' (dropLastIf '\r' l)

/-- Modelled from the words of claim C6: a line consisting solely of CR/LF
characters. -/
def solelyCRLF (l : List Char) : Bool :=
  l.all (fun c => decide (c = '\r' ∨ c = '\n'))

/-- An alphanumeric byte is none of the parser's structural characters. -/
theorem isAlnumC_not_special {c : Char} (h : isAlnumC c = true) :
    c ≠ ' ' ∧ c ≠ '\r' ∧ c ≠ '\n' ∧ c ≠ '\x00' := by
  refine ⟨?_, ?_, ?_, ?_⟩ <;> rintro rfl <;> exact absurd h (by decide)

/-- Reduction of `stripStep` on a string with a last character. -/
theorem stripStep_eq_some (s : List Char) (b : Bool) (c : Char)
    (h : s.getLast? = some c) :
    stripStep s b = if c = '\n' ∨ c = '\r' then (s.dropLast, b) else (s, b) := by
  unfold stripStep
  rw [h]

/-- Reduction of `stripStep` on the empty string: the out-of-range index is
examined. -/
theorem stripStep_nil (b : Bool) : stripStep [] b = ([], true) := rfl

/-- The string component of `stripStep` ignores the flag. -/
theorem stripStep_fst (s : List Char) (b : Bool) :
    (stripStep s b).1 = strip1 s := by
  cases h : s.getLast? with
  | none =>
      cases s with
      | nil => rfl
      | cons a t => simp [List.getLast?_eq_getLast_of_ne_nil] at h
  | some c =>
      rw [stripStep_eq_some s b c h, strip1, stripStep_eq_some s false c h]
      by_cases hc : c = '\n' ∨ c = '\r' <;> simp [hc]

/-- The flag component of `stripStep` is unchanged on a nonempty string. -/
theorem stripStep_flag (s : List Char) (b : Bool) (h : s ≠ []) :
    (stripStep s b).2 = b := by
  rw [stripStep_eq_some s b (s.getLast h) (List.getLast?_eq_getLast_of_ne_nil h)]
  by_cases hc : s.getLast h = '\n' ∨ s.getLast h = '\r' <;> simp [hc]

/-- The parse outcome of `parseCore` is the key loop on the doubly stripped
string. -/
theorem parseCore_fst (p : Nat) (rest : List Char) :
    (parseCore p rest).1 = keyLoop p (strip2 rest) 0 0 (strip2 rest) := by
  simp only [parseCore, strip2]
  rw [stripStep_fst, stripStep_fst]

/-- One strip iteration distributes over an appended left part whose last
character is not a line terminator. -/
theorem strip1_append_left (K R : List Char) (hK : K ≠ [])
    (hlast : ∀ c, K.getLast? = some c → ¬(c = '\n' ∨ c = '\r')) :
    strip1 (K ++ R) = K ++ strip1 R := by
  cases R with
  | nil =>
      rw [List.append_nil]
      have h := List.getLast?_eq_getLast_of_ne_nil hK
      rw [strip1, stripStep_eq_some K false (K.getLast hK) h, if_neg (hlast _ h)]
      simp [strip1, stripStep_nil]
  | cons r R' =>
      have hR : (r :: R') ≠ [] := List.cons_ne_nil r R'
      have h := List.getLast?_eq_getLast_of_ne_nil hR
      have hap : (K ++ r :: R').getLast? = some ((r :: R').getLast hR) := by
        rw [List.getLast?_append_of_ne_nil K hR, h]
      rw [strip1, stripStep_eq_some _ false _ hap, strip1,
        stripStep_eq_some _ false _ h]
      by_cases hc : (r :: R').getLast hR = '\n' ∨ (r :: R').getLast hR = '\r'
      · rw [if_pos hc, if_pos hc]
        simp [List.dropLast_append_of_ne_nil, hR]
      · rw [if_neg hc, if_neg hc]

/-- One strip iteration passes unchanged over a separator space followed by
the remainder: the strip can only consume remainder bytes. -/
theorem strip1_append_sep (K R : List Char) :
    strip1 (K ++ ' ' :: R) = K ++ ' ' :: strip1 R := by
  have h : strip1 ((K ++ [' ']) ++ R) = (K ++ [' ']) ++ strip1 R := by
    refine strip1_append_left (K ++ [' ']) R (by simp) ?_
    intro c hc
    rw [List.getLast?_concat] at hc
    cases hc
    decide
  simpa using h

/-- Both strip iterations pass over the separator space. -/
theorem strip2_append_sep (K R : List Char) :
    strip2 (K ++ ' ' :: R) = K ++ ' ' :: strip2 R := by
  rw [strip2, strip1_append_sep, strip1_append_sep, strip2]

/-- One strip iteration passes over a nonempty alphanumeric prefix. -/
theorem strip1_append_alnum (K R : List Char) (hK : K ≠ [])
    (ha : ∀ c ∈ K, isAlnumC c = true) :
    strip1 (K ++ R) = K ++ strip1 R := by
  refine strip1_append_left K R hK ?_
  intro c hc hcr
  have hmem : c ∈ K := by
    have := List.getLast?_eq_getLast_of_ne_nil hK
    rw [this] at hc
    cases hc
    exact List.getLast_mem hK
  have := isAlnumC_not_special (ha c hmem)
  rcases hcr with h | h
  · exact this.2.2.1 h
  · exact this.2.1 h

/-- Both strip iterations pass over a nonempty alphanumeric prefix. -/
theorem strip2_append_alnum (K R : List Char) (hK : K ≠ [])
    (ha : ∀ c ∈ K, isAlnumC c = true) :
    strip2 (K ++ R) = K ++ strip2 R := by
  rw [strip2, strip1_append_alnum K R hK ha, strip1_append_alnum K _ hK ha,
    strip2]

/-- A string without CR or LF characters is left unchanged by a strip
iteration. -/
theorem strip1_no_crlf (l : List Char) (h : ∀ c ∈ l, c ≠ '\r' ∧ c ≠ '\n') :
    strip1 l = l := by
  cases hl : l.getLast? with
  | none => rw [strip1, stripStep]; rw [hl]
  | some c =>
      obtain ⟨hne, rfl⟩ := List.mem_getLast?_eq_getLast (Option.mem_def.2 hl)
      have hc := h _ (List.getLast_mem hne)
      rw [strip1, stripStep_eq_some l false _ hl, if_neg ?_]
      rintro (hx | hx)
      · exact hc.2 hx
      · exact hc.1 hx

/-- A string without CR or LF characters survives both strip iterations. -/
theorem strip2_no_crlf (l : List Char) (h : ∀ c ∈ l, c ≠ '\r' ∧ c ≠ '\n') :
    strip2 l = l := by
  rw [strip2, strip1_no_crlf l h, strip1_no_crlf l h]

/-- Leading spaces are consumed by the `takeWhile`/`dropWhile` pair exactly
as the C leading-space loop does. -/
theorem space_prefix_split (p : Nat) (c : Char) (l : List Char) (hc : c ≠ ' ') :
    (List.replicate p ' ' ++ c :: l).takeWhile (fun x => x = ' ') =
        List.replicate p ' ' ∧
      (List.replicate p ' ' ++ c :: l).dropWhile (fun x => x = ' ') = c :: l := by
  induction p with
  | zero => simp [List.takeWhile_cons, List.dropWhile_cons, hc]
  | succ n ih =>
      simpa [List.replicate_succ, List.takeWhile_cons, List.dropWhile_cons]
        using ih

/-- `parseKVAux` on a line of `p` leading spaces followed by a non-space
character. -/
theorem parseKVAux_after_spaces (p : Nat) (c : Char) (l : List Char)
    (hc : c ≠ ' ') :
    parseKVAux (List.replicate p ' ' ++ c :: l) = parseCore p (c :: l) := by
  unfold parseKVAux
  rw [(space_prefix_split p c l hc).1, (space_prefix_split p c l hc).2,
    List.length_replicate]

/-- The key loop walks over an alphanumeric prefix within the length bound,
advancing position and key length together. -/
theorem keyLoop_alnum_run (rem : List Char) (p : Nat) (s : List Char) :
    ∀ (K : List Char) (n : Nat), (∀ c ∈ K, isAlnumC c = true) →
      n + K.length ≤ 16 →
      keyLoop p s n n (K ++ rem) = keyLoop p s (n + K.length) (n + K.length) rem := by
  intro K
  induction K with
  | nil => intro n _ _; simp
  | cons k K' ih =>
      intro n ha hlen
      have hk : isAlnumC k = true := ha k (List.mem_cons_self k K')
      have hlen' : n + (K'.length + 1) ≤ 16 := by simpa using hlen
      have h16 : ¬(n + 1 > KREG_MAX_KEY_LEN) := by
        show ¬(n + 1 > 16); omega
      rw [List.cons_append]
      simp only [keyLoop]
      rw [if_pos hk, if_neg h16,
        ih (n + 1) (fun c hc => ha c (List.mem_cons_of_mem _ hc)) (by omega)]
      have harg : n + 1 + K'.length = n + (k :: K').length := by
        simp [List.length_cons]; omega
      rw [harg]

/-- The key loop reports `KREG_KEY_TOO_LONG` at the seventeenth key
character, at offset `p + 17` reduced mod 65536. -/
theorem keyLoop_too_long (rem : List Char) (p : Nat) (s : List Char) :
    ∀ (K : List Char) (n : Nat), (∀ c ∈ K, isAlnumC c = true) →
      n ≤ 16 → 17 ≤ n + K.length →
      keyLoop p s n n (K ++ rem) =
        .err KREG_KEY_TOO_LONG ((p + 17) % 65536) := by
  intro K
  induction K with
  | nil => intro n _ h1 h2; exfalso; simp at h2; omega
  | cons k K' ih =>
      intro n ha h1 h2
      have hk : isAlnumC k = true := ha k (List.mem_cons_self k K')
      rw [List.cons_append]
      simp only [keyLoop]
      rw [if_pos hk]
      by_cases h17 : n + 1 > KREG_MAX_KEY_LEN
      · rw [if_pos h17]
        have hn : n = 16 := by
          have : n + 1 > 16 := h17
          omega
        subst hn
        rfl
      · rw [if_neg h17]
        have h17' : ¬(n + 1 > 16) := h17
        refine ih (n + 1) (fun c hc => ha c (List.mem_cons_of_mem _ hc))
          (by omega) ?_
        simp only [List.length_cons] at h2
        omega

/-- The key loop on a nonempty alphanumeric remainder reaching the NUL
terminator: key accepted, value out-parameter left NULL. -/
theorem keyLoop_key_end (p : Nat) (s : List Char) :
    ∀ (K : List Char) (n : Nat), (∀ c ∈ K, isAlnumC c = true) →
      n + K.length ≤ 16 → 0 < n + K.length →
      keyLoop p s n n K = .ok (s.take (n + K.length)) none := by
  intro K
  induction K with
  | nil =>
      intro n _ _ hpos
      simp only [List.length_nil, Nat.add_zero] at hpos
      simp only [keyLoop]
      rw [if_neg (by omega)]
      simp
  | cons k K' ih =>
      intro n ha hlen hpos
      have hk : isAlnumC k = true := ha k (List.mem_cons_self k K')
      have hlen' : n + (K'.length + 1) ≤ 16 := by simpa using hlen
      have h16 : ¬(n + 1 > KREG_MAX_KEY_LEN) := by
        show ¬(n + 1 > 16); omega
      simp only [keyLoop]
      rw [if_pos hk, if_neg h16,
        ih (n + 1) (fun c hc => ha c (List.mem_cons_of_mem _ hc)) (by omega)
          (by omega)]
      have harg : n + 1 + K'.length = n + (k :: K').length := by
        simp [List.length_cons]; omega
      rw [harg]

/-- The value phase at the separator following key `K`. -/
theorem valuePhase_sep (p : Nat) (K V : List Char) (n : Nat) (hn : n = K.length) :
    valuePhase p (K ++ ' ' :: V) n n =
      if V.length % 256 > 32 then
        .err KREG_VAL_TOO_LONG ((p + n + 34) % 65536)
      else if V.length % 256 ≠ 0 then .ok K (some (V.take (V.length % 256)))
      else .ok K none := by
  subst hn
  have hsub : (K ++ ' ' :: V).length - (K.length + 1) = V.length := by
    simp; omega
  have htake : (K ++ ' ' :: V).take K.length = K := List.take_left K _
  have hdrop : (K ++ ' ' :: V).drop (K.length + 1) = V := by
    have h1 : K ++ ' ' :: V = (K ++ [' ']) ++ V := by simp
    have h2 : K.length + 1 = (K ++ [' ']).length := by simp
    rw [h1, h2, List.drop_left]
  simp only [valuePhase, hsub, htake, hdrop]
  rfl

/-- Full characterization of the parser on a well-formed line shape
`spaces ++ key ++ ' ' ++ remainder`: only the first space is consumed, the
remainder is subject to the two-iteration trailing strip, and its length is
narrowed to `uint8_t`. -/
theorem parse_key_sep (p : Nat) (K R : List Char) (hne : K ≠ [])
    (ha : ∀ c ∈ K, isAlnumC c = true) (hlen : K.length ≤ 16) :
    parseKeyValue (List.replicate p ' ' ++ K ++ ' ' :: R) =
      if (strip2 R).length % 256 > 32 then
        .err KREG_VAL_TOO_LONG ((p + K.length + 34) % 65536)
      else if (strip2 R).length % 256 ≠ 0 then
        .ok K (some ((strip2 R).take ((strip2 R).length % 256)))
      else .ok K none := by
  obtain ⟨k0, K0, rfl⟩ : ∃ k0 K0, K = k0 :: K0 := by
    cases K with
    | nil => exact absurd rfl hne
    | cons a b => exact ⟨a, b, rfl⟩
  have hk0 : k0 ≠ ' ' :=
    (isAlnumC_not_special (ha _ (List.mem_cons_self _ _))).1
  rw [parseKeyValue, List.append_assoc, List.cons_append,
    parseKVAux_after_spaces p k0 (K0 ++ ' ' :: R) hk0, parseCore_fst,
    ← List.cons_append, strip2_append_sep]
  rw [keyLoop_alnum_run (' ' :: strip2 R) p _ (k0 :: K0) 0 ha
    (by simpa using hlen)]
  simp only [Nat.zero_add]
  simp only [keyLoop]
  rw [if_neg (show ¬(isAlnumC ' ' = true) by decide)]
  simp only [if_true]
  exact valuePhase_sep p (k0 :: K0) (strip2 R) _ rfl

/-- Characterization of the parser on `spaces ++ key` without a separator:
the key is returned with the value out-parameter left NULL. -/
theorem parse_key_only (p : Nat) (K : List Char) (hne : K ≠ [])
    (ha : ∀ c ∈ K, isAlnumC c = true) (hlen : K.length ≤ 16) :
    parseKeyValue (List.replicate p ' ' ++ K) = .ok K none := by
  obtain ⟨k0, K0, rfl⟩ : ∃ k0 K0, K = k0 :: K0 := by
    cases K with
    | nil => exact absurd rfl hne
    | cons a b => exact ⟨a, b, rfl⟩
  have hk0 : k0 ≠ ' ' :=
    (isAlnumC_not_special (ha _ (List.mem_cons_self _ _))).1
  rw [parseKeyValue, parseKVAux_after_spaces p k0 K0 hk0, parseCore_fst]
  have hs : strip2 (k0 :: K0) = k0 :: K0 := by
    have h0 := strip2_append_alnum (k0 :: K0) [] (List.cons_ne_nil _ _) ha
    simpa [show strip2 ([] : List Char) = [] from rfl] using h0
  rw [hs, keyLoop_key_end p _ (k0 :: K0) 0 ha (by simpa using hlen)
    (by simp)]
  simp

/-- Characterization of the parser on a line whose key run exceeds sixteen
alphanumeric characters: `KREG_KEY_TOO_LONG` at offset `p + 17` mod 65536,
whatever follows the run. -/
theorem parse_key_too_long (p : Nat) (K rest : List Char)
    (ha : ∀ c ∈ K, isAlnumC c = true) (hlen : 17 ≤ K.length) :
    parseKeyValue (List.replicate p ' ' ++ K ++ rest) =
      .err KREG_KEY_TOO_LONG ((p + 17) % 65536) := by
  obtain ⟨k0, K0, rfl⟩ : ∃ k0 K0, K = k0 :: K0 := by
    cases K with
    | nil => simp at hlen
    | cons a b => exact ⟨a, b, rfl⟩
  have hk0 : k0 ≠ ' ' :=
    (isAlnumC_not_special (ha _ (List.mem_cons_self _ _))).1
  rw [parseKeyValue, List.append_assoc, List.cons_append,
    parseKVAux_after_spaces p k0 (K0 ++ rest) hk0, parseCore_fst,
    ← List.cons_append,
    strip2_append_alnum (k0 :: K0) rest (List.cons_ne_nil _ _) ha]
  exact keyLoop_too_long (strip2 rest) p _ (k0 :: K0) 0 ha (by omega)
    (by simpa using hlen)

/-- Claim C1: for every key of 1-16 alphanumeric characters and value of
0-32 bytes without CR/LF, parsing the line `K V` (or `K` alone when `V` is
empty) succeeds and yields exactly `(K, V)` with case preserved; the empty
value is represented by the NULL (`none`) value out-parameter, as
documented at keyregistry.c line 148. -/
theorem parse_round_trip (K V : List Char) (hne : K ≠ [])
    (hlen : K.length ≤ KREG_MAX_KEY_LEN) (ha : ∀ c ∈ K, isAlnumC c = true)
    (hvlen : V.length ≤ KREG_MAX_VAL_LEN)
    (hv : ∀ c ∈ V, c ≠ '\r' ∧ c ≠ '\n') :
    parseKeyValue (if V = [] then K else K ++ ' ' :: V) =
      .ok K (if V = [] then none else some V) := by
  by_cases hV : V = []
  · subst hV
    simp only [if_pos rfl]
    have h := parse_key_only 0 K hne ha hlen
    simpa using h
  · rw [if_neg hV, if_neg hV]
    have hvlen' : V.length ≤ 32 := hvlen
    have h := parse_key_sep 0 K V hne ha hlen
    rw [strip2_no_crlf V hv,
      Nat.mod_eq_of_lt (show V.length < 256 by omega)] at h
    rw [if_neg (by omega),
      if_pos (show V.length ≠ 0 from fun h0 => hV (List.length_eq_zero.1 h0)),
      List.take_length] at h
    simpa using h

/-- Witness for C1 at `hungary Budapest` and at a key with empty value. -/
theorem parse_round_trip_witness :
    parseKeyValue ("hungary".toList ++ ' ' :: "Budapest".toList) =
      .ok "hungary".toList (some "Budapest".toList) ∧
    parseKeyValue "japan".toList = .ok "japan".toList none := by
  constructor
  · have h := parse_round_trip "hungary".toList "Budapest".toList (by decide)
      (by decide) (by decide) (by decide) (by decide)
    rw [if_neg (show ¬("Budapest".toList = []) by decide),
      if_neg (show ¬("Budapest".toList = []) by decide)] at h
    exact h
  · have h := parse_round_trip "japan".toList [] (by decide) (by decide)
      (by decide) (by decide) (by decide)
    rw [if_pos rfl, if_pos rfl] at h
    exact h

/-- Claim C5, amended: a key run of more than 16 alphanumeric characters is
rejected as `KREG_KEY_TOO_LONG` with offset the 1-based position of the 17th
key character reduced mod 65536 (`errPos` is a `uint16_t`), and a 16
character key is accepted. -/
theorem key_too_long_offset :
    (∀ (p : Nat) (K rest : List Char), (∀ c ∈ K, isAlnumC c = true) →
        17 ≤ K.length →
        parseKeyValue (List.replicate p ' ' ++ K ++ rest) =
          .err KREG_KEY_TOO_LONG ((p + 17) % 65536)) ∧
    (∀ K : List Char, (∀ c ∈ K, isAlnumC c = true) → K.length = 16 →
        parseKeyValue K = .ok K none) := by
  constructor
  · exact parse_key_too_long
  · intro K ha hlen
    have h := parse_key_only 0 K (by rintro rfl; simp at hlen) ha (by omega)
    simpa using h

/-- Witness for C5 at a 17-character key after one leading space and at a
16-character key. -/
theorem key_too_long_offset_witness :
    parseKeyValue (List.replicate 1 ' ' ++ "abcdefghijklmnopq".toList ++ []) =
      .err KREG_KEY_TOO_LONG ((1 + 17) % 65536) ∧
    parseKeyValue "abcdefghijklmnop".toList =
      .ok "abcdefghijklmnop".toList none := by
  constructor
  · exact key_too_long_offset.1 1 "abcdefghijklmnopq".toList [] (by decide)
      (by decide)
  · exact key_too_long_offset.2 "abcdefghijklmnop".toList (by decide)
      (by decide)

/-- Counterexample to C5 as stated: `errPos` is a `uint16_t`, so on a line
of 65519 leading spaces followed by 17 key characters the reported offset is
`(65519 + 17) % 65536 = 0`, not the 1-based position 65536 of the 17th key
character. -/
theorem key_too_long_offset_wrap_cex :
    parseKeyValue (List.replicate 65519 ' ' ++ List.replicate 17 'a') =
      .err KREG_KEY_TOO_LONG 0 ∧ 65519 + 17 = 65536 := by
  constructor
  · have h := parse_key_too_long 65519 (List.replicate 17 'a') []
      (fun c hc => by rw [List.eq_of_mem_replicate hc]; decide) (by simp)
    rw [List.append_nil] at h
    rw [show (65519 + 17) % 65536 = 0 by norm_num] at h
    exact h
  · norm_num

/-- Claim C3 (evaluation at the failing input): `valLen` is a `uint8_t`, so
a value of exactly 256 bytes yields `valLen = 0` and the line is accepted
with a NULL (empty) value instead of being rejected as
`KREG_VAL_TOO_LONG`. -/
theorem value_len_mod256_accepts_256 :
    parseKeyValue ('k' :: ' ' :: List.replicate 256 'a') = .ok ['k'] none ∧
    (List.replicate 256 'a').length = 256 := by
  constructor
  · have h := parse_key_sep 0 ['k'] (List.replicate 256 'a') (by decide)
      (by decide) (by decide)
    have hs : strip2 (List.replicate 256 'a') = List.replicate 256 'a' :=
      strip2_no_crlf _ (fun c hc => by rw [List.eq_of_mem_replicate hc]; decide)
    rw [hs] at h
    simp only [List.length_replicate] at h
    rw [show (256 : Nat) % 256 = 0 by norm_num] at h
    rw [if_neg (show ¬((0 : Nat) > 32) by norm_num),
      if_neg (show ¬((0 : Nat) ≠ 0) by simp)] at h
    exact h
  · rw [List.length_replicate]

/-- Counterexample to C4 as stated: on the line `k v` followed by two LFs
the code strips BOTH trailing LFs (each strip iteration accepts either CR or
LF), so the returned value is `v`, while the claim's strip of at most one LF
and at most one CR, in either order, leaves `v` followed by one LF. -/
theorem value_strip_two_newlines_cex :
    parseKeyValue ['k', ' ', 'v', '\n', '\n'] = .ok ['k'] (some ['v']) ∧
    claimStripLFthenCR ['v', '\n', '\n'] = ['v', '\n'] ∧
    claimStripCRthenLF ['v', '\n', '\n'] = ['v', '\n'] ∧
    (['v'] : List Char) ≠ ['v', '\n'] := by
  refine ⟨by decide, by decide, by decide, by decide⟩

/-- Claim C4, amended: when a line `spaces ++ key ++ ' ' ++ R` parses
successfully, the returned value is `R` after the code's trailing strip --
two iterations, each removing a final CR or LF, so a line ending in two LFs
loses both -- truncated to its length reduced mod 256 (`valLen` is a
`uint8_t`), the empty result being represented as NULL. -/
theorem value_after_separator_strip (p : Nat) (K R : List Char)
    (v : Option (List Char)) (hne : K ≠ [])
    (ha : ∀ c ∈ K, isAlnumC c = true) (hlen : K.length ≤ KREG_MAX_KEY_LEN)
    (hok : parseKeyValue (List.replicate p ' ' ++ K ++ ' ' :: R) = .ok K v) :
    v = if (strip2 R).length % 256 = 0 then none
        else some ((strip2 R).take ((strip2 R).length % 256)) := by
  have h := parse_key_sep p K R hne ha hlen
  rw [hok] at h
  by_cases h32 : (strip2 R).length % 256 > 32
  · rw [if_pos h32] at h
    exact ParseResult.noConfusion h
  · rw [if_neg h32] at h
    by_cases h0 : (strip2 R).length % 256 = 0
    · rw [if_pos h0]
      rw [if_neg (by simp [h0])] at h
      injection h
    · rw [if_neg h0]
      rw [if_pos h0] at h
      injection h

/-- Witness for C4 at the line `k v` with two trailing LFs: the value
delivered by the parser is the claimed right-hand side. -/
theorem value_after_separator_strip_witness :
    (some ['v'] : Option (List Char)) =
      (if (strip2 ['v', '\n', '\n']).length % 256 = 0 then none
       else some ((strip2 ['v', '\n', '\n']).take
         ((strip2 ['v', '\n', '\n']).length % 256))) :=
  value_after_separator_strip 0 ['k'] ['v', '\n', '\n'] (some ['v'])
    (by decide) (by decide) (by decide) (by decide)

/-- Appending a fresh key at the tail makes it findable. -/
theorem searchKey_append_self (k : List Char) (v : Option (List Char))
    (s : Store) (h : searchKey k s = none) :
    searchKey k (s ++ [(k, v)]) = some (k, v) := by
  induction s with
  | nil => simp [searchKey]
  | cons kv t ih =>
      simp only [searchKey, List.cons_append] at h ⊢
      by_cases hk : kv.1 = k
      · rw [if_pos hk] at h
        exact Option.noConfusion h
      · rw [if_neg hk] at h ⊢
        exact ih h

/-- Overwriting the first occurrence of a present key makes lookup return
the new value. -/
theorem searchKey_overwriteFirst (k : List Char) (v : Option (List Char))
    (s : Store) (h : (searchKey k s).isSome = true) :
    searchKey k (overwriteFirst k v s) = some (k, v) := by
  induction s with
  | nil => simp [searchKey] at h
  | cons kv t ih =>
      by_cases hk : kv.1 = k
      · simp only [overwriteFirst, if_pos hk, searchKey]
        rw [hk]
      · have h' : (searchKey k t).isSome = true := by
          simp only [searchKey, if_neg hk] at h
          exact h
        simp only [overwriteFirst, if_neg hk, searchKey]
        exact ih h'

/-- In the overwrite build, `storeKey` returns `KREG_OK` and afterwards the
key is found with the freshly stored value. -/
theorem storeKey_true_spec (k : List Char) (v : Option (List Char))
    (s : Store) :
    (storeKey true k v s).1 = KREG_OK ∧
    searchKey k (storeKey true k v s).2 = some (k, v) := by
  cases hse : searchKey k s with
  | none =>
      have hs : storeKey true k v s = (KREG_OK, s ++ [(k, v)]) := by
        unfold storeKey
        rw [hse]
      rw [hs]
      exact ⟨rfl, searchKey_append_self k v s hse⟩
  | some kv =>
      have hs : storeKey true k v s = (KREG_OK, overwriteFirst k v s) := by
        unfold storeKey
        rw [hse]
        rfl
      rw [hs]
      exact ⟨rfl, searchKey_overwriteFirst k v s (by rw [hse]; rfl)⟩

/-- Claim C2: under AllowOverwrite, `insert(k,v1); insert(k,v2); lookup(k)`
returns `v2` with both inserts `KREG_OK`, from any prior store; under
RejectDuplicate with `k` fresh, the second insert returns `KREG_KEY_EXISTS`,
the store is unchanged by it, and lookup still returns `v1`. -/
theorem store_update_policy (s : Store) (k : List Char)
    (v1 v2 : Option (List Char)) :
    ((storeKey true k v1 s).1 = KREG_OK ∧
      (storeKey true k v2 (storeKey true k v1 s).2).1 = KREG_OK ∧
      readKey k (storeKey true k v2 (storeKey true k v1 s).2).2 none =
        (KREG_OK, v2)) ∧
    (searchKey k s = none →
      (storeKey false k v1 s).1 = KREG_OK ∧
      (storeKey false k v2 (storeKey false k v1 s).2).1 = KREG_KEY_EXISTS ∧
      (storeKey false k v2 (storeKey false k v1 s).2).2 =
        (storeKey false k v1 s).2 ∧
      readKey k (storeKey false k v1 s).2 none = (KREG_OK, v1)) := by
  constructor
  · obtain ⟨h1, hs1⟩ := storeKey_true_spec k v1 s
    obtain ⟨h2, hs2⟩ := storeKey_true_spec k v2 (storeKey true k v1 s).2
    refine ⟨h1, h2, ?_⟩
    unfold readKey
    rw [hs2]
  · intro hnone
    have hstore1 : storeKey false k v1 s = (KREG_OK, s ++ [(k, v1)]) := by
      unfold storeKey
      rw [hnone]
    have hs1 : searchKey k (s ++ [(k, v1)]) = some (k, v1) :=
      searchKey_append_self k v1 s hnone
    have hstore2 : storeKey false k v2 (s ++ [(k, v1)]) =
        (KREG_KEY_EXISTS, s ++ [(k, v1)]) := by
      unfold storeKey
      rw [hs1]
      rfl
    rw [hstore1]
    refine ⟨rfl, ?_, ?_, ?_⟩
    · rw [hstore2]
    · rw [hstore2]
    · unfold readKey
      rw [hs1]

/-- Witness for C2 at key `k`, values `a` then `b`, from the empty store. -/
theorem store_update_policy_witness :
    readKey ['k']
        (storeKey true ['k'] (some ['b'])
          (storeKey true ['k'] (some ['a']) []).2).2 none =
      (KREG_OK, some ['b']) ∧
    (storeKey false ['k'] (some ['b'])
        (storeKey false ['k'] (some ['a']) []).2).1 = KREG_KEY_EXISTS :=
  ⟨(store_update_policy [] ['k'] (some ['a']) (some ['b'])).1.2.2,
    ((store_update_policy [] ['k'] (some ['a']) (some ['b'])).2 rfl).2.1⟩

/-- Every error of the value phase is `KREG_VAL_TOO_LONG`. -/
theorem valuePhase_err_kind {p : Nat} {s : List Char} {pos keyLen k e : Nat}
    (h : valuePhase p s pos keyLen = .err k e) : k = KREG_VAL_TOO_LONG := by
  simp only [valuePhase] at h
  split at h
  · injection h with h1 h2
    exact h1.symm
  · split at h
    · exact ParseResult.noConfusion h
    · exact ParseResult.noConfusion h

/-- Every error kind produced by the key loop is one of the four parse
errors. -/
theorem keyLoop_err_kind :
    ∀ (rem : List Char) (p : Nat) (s : List Char) (pos keyLen k e : Nat),
      keyLoop p s pos keyLen rem = .err k e →
      k = KREG_KEY_EMPTY ∨ k = KREG_KEY_INVALID ∨ k = KREG_KEY_TOO_LONG ∨
        k = KREG_VAL_TOO_LONG := by
  intro rem
  induction rem with
  | nil =>
      intro p s pos keyLen k e h
      simp only [keyLoop] at h
      split at h
      · injection h with h1 h2
        exact Or.inl h1.symm
      · exact ParseResult.noConfusion h
  | cons c rem' ih =>
      intro p s pos keyLen k e h
      simp only [keyLoop] at h
      split at h
      · split at h
        · injection h with h1 h2
          exact Or.inr (Or.inr (Or.inl h1.symm))
        · exact ih p s _ _ k e h
      · split at h
        · exact Or.inr (Or.inr (Or.inr (valuePhase_err_kind h)))
        · split at h
          · split at h
            · injection h with h1 h2
              exact Or.inl h1.symm
            · exact ParseResult.noConfusion h
          · injection h with h1 h2
            exact Or.inr (Or.inl h1.symm)

/-- Every parse error kind is one of the four parse errors. -/
theorem parse_err_kind {l : List Char} {k e : Nat}
    (h : parseKeyValue l = .err k e) :
    k = KREG_KEY_EMPTY ∨ k = KREG_KEY_INVALID ∨ k = KREG_KEY_TOO_LONG ∨
      k = KREG_VAL_TOO_LONG := by
  unfold parseKeyValue parseKVAux at h
  rw [parseCore_fst] at h
  exact keyLoop_err_kind _ _ _ _ _ _ _ h

/-- One loader step on a skipped line. -/
theorem loadLines_cons_skip (au : Bool) (s : Store) (c : Nat) (l : List Char)
    (ls : List (List Char)) (h : lineSkipped l = true) :
    loadLines au s c (l :: ls) = loadLines au s ((c + 1) % 65536) ls := by
  simp [loadLines, h]

/-- One loader step on a failing line: the load aborts with the incremented
line counter, the parser's kind and offset, and the store built so far. -/
theorem loadLines_cons_err (au : Bool) (s : Store) (c : Nat) (l : List Char)
    (ls : List (List Char)) (k e : Nat) (h1 : lineSkipped l = false)
    (h2 : parseKeyValue l = .err k e) :
    loadLines au s c (l :: ls) = .err k ((c + 1) % 65536) e s := by
  simp only [loadLines, h1]
  rw [h2]
  rfl

/-- One loader step on a successfully parsed line. -/
theorem loadLines_cons_ok (au : Bool) (s : Store) (c : Nat) (l : List Char)
    (ls : List (List Char)) (k : List Char) (v : Option (List Char))
    (h1 : lineSkipped l = false) (h2 : parseKeyValue l = .ok k v) :
    loadLines au s c (l :: ls) =
      loadLines au (storeKey au k v s).2 ((c + 1) % 65536) ls := by
  simp only [loadLines, h1]
  rw [h2]
  rfl

/-- Loading a fully successful prefix continues with the accumulated store
and the line counter advanced by the prefix length, mod 65536. -/
theorem loadLines_append_ok :
    ∀ (pre : List (List Char)) (au : Bool) (s : Store) (c : Nat)
      (rest : List (List Char)) (s1 : Store), c < 65536 →
      loadLines au s c pre = .ok s1 →
      loadLines au s c (pre ++ rest) =
        loadLines au s1 ((c + pre.length) % 65536) rest := by
  intro pre
  induction pre with
  | nil =>
      intro au s c rest s1 hc h
      simp only [loadLines] at h
      injection h with h1
      subst h1
      simp only [List.nil_append, List.length_nil, Nat.add_zero,
        Nat.mod_eq_of_lt hc]
  | cons l pre' ih =>
      intro au s c rest s1 hc h
      have hmod : ((c + 1) % 65536 + pre'.length) % 65536 =
          (c + (l :: pre').length) % 65536 := by
        rw [Nat.mod_add_mod]
        congr 1
        simp only [List.length_cons]
        omega
      by_cases hskip : lineSkipped l
      · rw [loadLines_cons_skip au s c l pre' hskip] at h
        rw [List.cons_append, loadLines_cons_skip au s c l (pre' ++ rest) hskip,
          ih au s ((c + 1) % 65536) rest s1 (Nat.mod_lt _ (by norm_num)) h,
          hmod]
      · have hskip' : lineSkipped l = false := by
          cases hv : lineSkipped l
          · rfl
          · exact absurd hv hskip
        cases hp : parseKeyValue l with
        | err kind pos =>
            rw [loadLines_cons_err au s c l pre' kind pos hskip' hp] at h
            exact LoadResult.noConfusion h
        | ok key v =>
            rw [loadLines_cons_ok au s c l pre' key v hskip' hp] at h
            rw [List.cons_append,
              loadLines_cons_ok au s c l (pre' ++ rest) key v hskip' hp,
              ih au _ ((c + 1) % 65536) rest s1 (Nat.mod_lt _ (by norm_num)) h,
              hmod]

/-- Loading any number of copies of a line whose parse result leaves the
store unchanged (for example a strict-mode duplicate) succeeds without
changing the store. -/
theorem loadLines_fixed (au : Bool) (s : Store) (l : List Char)
    (k : List Char) (v : Option (List Char)) (h1 : lineSkipped l = false)
    (h2 : parseKeyValue l = .ok k v) (h3 : (storeKey au k v s).2 = s) :
    ∀ (n c : Nat), loadLines au s c (List.replicate n l) = .ok s := by
  intro n
  induction n with
  | zero => intro c; rfl
  | succ m ih =>
      intro c
      rw [List.replicate_succ,
        loadLines_cons_ok au s c l (List.replicate m l) k v h1 h2, h3]
      exact ih _

/-- Claim C6, amended: the loader skips a line without a parse attempt if
and only if the line's FIRST character is CR or LF (keyregistry.c line 310
examines `*line` only); every line consisting solely of CR/LF characters is
therefore skipped, but so is any line that merely begins with CR or LF, and
such a line is never handed to the parser. -/
theorem loader_skip_rule (au : Bool) (s : Store) (cnt : Nat) (l : List Char)
    (ls : List (List Char)) :
    (lineSkipped l = true →
      loadLines au s cnt (l :: ls) = loadLines au s ((cnt + 1) % 65536) ls) ∧
    (lineSkipped l = false → ∀ k e, parseKeyValue l = .err k e →
      loadLines au s cnt (l :: ls) = .err k ((cnt + 1) % 65536) e s) ∧
    (lineSkipped l = false → ∀ k v, parseKeyValue l = .ok k v →
      loadLines au s cnt (l :: ls) =
        loadLines au (storeKey au k v s).2 ((cnt + 1) % 65536) ls) ∧
    (solelyCRLF l = true → l ≠ [] → lineSkipped l = true) := by
  refine ⟨loadLines_cons_skip au s cnt l ls, ?_, ?_, ?_⟩
  · intro h1 k e h2
    exact loadLines_cons_err au s cnt l ls k e h1 h2
  · intro h1 k v h2
    exact loadLines_cons_ok au s cnt l ls k v h1 h2
  · intro hall hne
    cases l with
    | nil => exact absurd rfl hne
    | cons c t =>
        simp only [solelyCRLF, List.all_cons, Bool.and_eq_true] at hall
        simp only [lineSkipped]
        exact hall.1

/-- Witness for C6: a lone LF line is skipped, and a line of only CR/LF
characters is skipped. -/
theorem loader_skip_rule_witness :
    loadLines false [] 0 [['\n']] = loadLines false [] ((0 + 1) % 65536) [] ∧
    lineSkipped ['\n'] = true :=
  ⟨(loader_skip_rule false [] 0 ['\n'] []).1 (by decide),
    (loader_skip_rule false [] 0 ['\n'] []).2.2.2 (by decide) (by decide)⟩

/-- Counterexample to C6 as stated: the line CR `a` LF does not consist
solely of CR/LF characters and is malformed (the parser would report
`KREG_KEY_INVALID` at offset 1), yet the loader skips it because its first
character is CR, and the load succeeds instead of aborting. -/
theorem loader_skip_first_char_cex :
    readRegistryLines false [] [['\r', 'a', '\n']] = .ok [] ∧
    solelyCRLF ['\r', 'a', '\n'] = false ∧
    parseKeyValue ['\r', 'a', '\n'] = .err KREG_KEY_INVALID 1 := by
  refine ⟨by decide, by decide, by decide⟩

/-- No result other than `KREG_OK` lets `main` reach `serverTask`. -/
theorem servesClients_ne_zero {k : Nat} (h : k ≠ 0) :
    servesClients k = false := by
  cases k with
  | zero => exact absurd rfl h
  | succ n => rfl

/-- Claim C7, amended: on the first failing line the load aborts at once --
the following lines are never examined -- returning the parser's error kind
and byte offset and the failing line's 1-based number reduced mod 65536
(`lineNr` is a `uint16_t`); the store keeps exactly the pairs inserted from
the preceding lines; and the server's `main` does not serve on any such
error kind. -/
theorem loader_first_failure_abort (au : Bool) (s0 : Store) (c : Nat)
    (pre : List (List Char)) (l : List Char) (post : List (List Char))
    (k pos : Nat) (s1 : Store) (hc : c < 65536)
    (hpre : loadLines au s0 c pre = .ok s1)
    (hskip : lineSkipped l = false)
    (herr : parseKeyValue l = .err k pos) :
    loadLines au s0 c (pre ++ l :: post) =
      .err k ((c + pre.length + 1) % 65536) pos s1 ∧
    servesClients k = false := by
  constructor
  · rw [loadLines_append_ok pre au s0 c (l :: post) s1 hc hpre,
      loadLines_cons_err au s1 _ l post k pos hskip herr]
    congr 1
    rw [Nat.mod_add_mod]
  · rcases parse_err_kind herr with h | h | h | h <;> subst h <;> rfl

/-- Witness for C7: a two-line file whose second line is malformed fails
with line number 2, offset 1, keeping the pair from line 1, and the server
does not serve. -/
theorem loader_first_failure_abort_witness :
    loadLines false [] 0 ([['a', '\n']] ++ ['!', '\n'] :: [['x']]) =
      .err KREG_KEY_INVALID ((0 + [['a', '\n']].length + 1) % 65536) 1
        [(['a'], none)] ∧
    servesClients KREG_KEY_INVALID = false :=
  loader_first_failure_abort false [] 0 [['a', '\n']] ['!', '\n'] [['x']]
    KREG_KEY_INVALID 1 [(['a'], none)] (by norm_num) (by decide) (by decide)
    (by decide)

/-- Counterexample to C7 as stated: `lineNr` is a `uint16_t`, so a registry
file of 65536 well-formed lines followed by a malformed 65537th line reports
line number `65537 % 65536 = 1`, not 65537. -/
theorem loader_line_number_wrap_cex :
    loadLines false [] 0
        (List.replicate 65536 ['a', '\n'] ++ [['!', '\n']]) =
      .err KREG_KEY_INVALID 1 1 [(['a'], none)] ∧
    (List.replicate 65536 ['a', '\n'] ++ [['!', '\n']]).length = 65537 := by
  constructor
  · have hrepl : List.replicate 65536 (['a', '\n'] : List Char) =
        ['a', '\n'] :: List.replicate 65535 ['a', '\n'] := by
      rw [show (65536 : Nat) = 65535 + 1 by norm_num, List.replicate_succ]
    rw [hrepl, List.cons_append,
      loadLines_cons_ok false [] 0 ['a', '\n']
        (List.replicate 65535 ['a', '\n'] ++ [['!', '\n']]) ['a'] none
        (by decide) (by decide),
      show (storeKey false ['a'] none []).2 = [(['a'], none)] from rfl]
    have hfix := loadLines_fixed false [(['a'], none)] ['a', '\n'] ['a'] none
      (by decide) (by decide) (by decide) 65535 ((0 + 1) % 65536)
    rw [loadLines_append_ok (List.replicate 65535 ['a', '\n']) false
      [(['a'], none)] ((0 + 1) % 65536) [['!', '\n']] [(['a'], none)]
      (by norm_num) hfix, List.length_replicate,
      show ((0 + 1) % 65536 + 65535) % 65536 = 0 from by norm_num,
      loadLines_cons_err false [(['a'], none)] 0 ['!', '\n'] []
        KREG_KEY_INVALID 1 (by decide) (by decide)]
  · rw [List.length_append, List.length_replicate]
    rfl

/-- On an all-CR/LF nonempty string one strip iteration drops the last
character. -/
theorem strip1_crlf_getLast (l : List Char) (hne : l ≠ [])
    (hall : ∀ x ∈ l, x = '\r' ∨ x = '\n') : strip1 l = l.dropLast := by
  have hg := List.getLast?_eq_getLast_of_ne_nil hne
  have hc : l.getLast hne = '\n' ∨ l.getLast hne = '\r' :=
    (hall _ (List.getLast_mem hne)).symm
  rw [strip1, stripStep_eq_some l false _ hg, if_pos hc]

/-- `parseKVAux` on a line that starts with a non-space character. -/
theorem parseKVAux_no_space (c : Char) (l : List Char) (hc : c ≠ ' ') :
    parseKVAux (c :: l) = parseCore 0 (c :: l) :=
  parseKVAux_after_spaces 0 c l hc

/-- The out-of-range flag of the parser core is set exactly when the string
left after removing leading spaces is empty or a single CR/LF character. -/
theorem parseCore_flag_iff (p : Nat) (rest : List Char) :
    (parseCore p rest).2 = true ↔
      (rest = [] ∨ ∃ c, rest = [c] ∧ (c = '\r' ∨ c = '\n')) := by
  rcases rest with _ | ⟨x, t⟩
  · exact ⟨fun _ => Or.inl rfl, fun _ => rfl⟩
  · rcases t with _ | ⟨y, t'⟩
    · by_cases hx : x = '\n' ∨ x = '\r'
      · constructor
        · intro _
          exact Or.inr ⟨x, rfl, hx.symm⟩
        · intro _
          show (stripStep (stripStep [x] false).1 (stripStep [x] false).2).2 =
            true
          rw [stripStep_eq_some [x] false x rfl, if_pos hx]
          rfl
      · constructor
        · intro hflag
          exfalso
          revert hflag
          show ¬((stripStep (stripStep [x] false).1
            (stripStep [x] false).2).2 = true)
          rw [stripStep_eq_some [x] false x rfl, if_neg hx,
            stripStep_eq_some [x] false x rfl, if_neg hx]
          simp
        · rintro (h | ⟨c, hc, hcr⟩)
          · exact absurd h (by simp)
          · injection hc with h1 h2
            subst h1
            exact absurd hcr.symm hx
    · constructor
      · intro hflag
        exfalso
        have h1 : (stripStep (x :: y :: t') false).2 = false :=
          stripStep_flag _ false (by simp)
        have h1' : (stripStep (x :: y :: t') false).1 ≠ [] := by
          have hg := List.getLast?_eq_getLast_of_ne_nil
            (show (x :: y :: t') ≠ [] by simp)
          rw [stripStep_eq_some _ false _ hg]
          by_cases hc : (x :: y :: t').getLast (by simp) = '\n' ∨
              (x :: y :: t').getLast (by simp) = '\r'
          · rw [if_pos hc]
            show (x :: y :: t').dropLast ≠ []
            rw [show (x :: y :: t').dropLast = x :: (y :: t').dropLast
              from rfl]
            simp
          · rw [if_neg hc]
            simp
        have h2 := stripStep_flag (stripStep (x :: y :: t') false).1
          (stripStep (x :: y :: t') false).2 h1'
        have : (parseCore p (x :: y :: t')).2 = false := by
          show (stripStep (stripStep (x :: y :: t') false).1
            (stripStep (x :: y :: t') false).2).2 = false
          rw [h2, h1]
        rw [hflag] at this
        exact Bool.noConfusion this
      · rintro (h | ⟨c, hc, hcr⟩)
        · exact absurd h (by simp)
        · exact absurd (congrArg List.length hc) (by simp)

/-- Claim C10, amended: the trailing strip DOES examine the out-of-range
index `len - 1 = -1` (exactly when the line, after leading spaces, is empty
or a single CR/LF byte); at both call sites the byte found there is never
CR or LF, so such inputs are handled and return `KREG_KEY_EMPTY`, while an
all-CR/LF line of three or more characters returns `KREG_KEY_INVALID` at
offset 1 (only two characters are stripped). -/
theorem parse_totality_characterization :
    (∀ l : List Char,
      ((parseKVAux l).2 = true ↔
        (l.dropWhile (fun c => c = ' ') = [] ∨
          ∃ c, l.dropWhile (fun c => c = ' ') = [c] ∧
            (c = '\r' ∨ c = '\n')))) ∧
    (∀ l : List Char, solelyCRLF l = true → l ≠ [] →
      (l.length ≤ 2 → parseKeyValue l = .err KREG_KEY_EMPTY 1) ∧
      (3 ≤ l.length → parseKeyValue l = .err KREG_KEY_INVALID 1)) ∧
    parseKeyValue [] = .err KREG_KEY_EMPTY 1 := by
  refine ⟨fun l => parseCore_flag_iff _ _, ?_, by decide⟩
  intro l hall hne
  have hmem : ∀ x ∈ l, x = '\r' ∨ x = '\n' := by
    intro x hx
    have h := List.all_eq_true.1 hall x hx
    simpa using h
  constructor
  · intro hlen2
    rcases l with _ | ⟨a, _ | ⟨b, _ | ⟨c', t⟩⟩⟩
    · exact absurd rfl hne
    · rcases hmem a (by simp) with rfl | rfl <;> decide
    · rcases hmem a (by simp) with rfl | rfl <;>
        rcases hmem b (by simp) with rfl | rfl <;> decide
    · exfalso
      simp only [List.length_cons] at hlen2
      omega
  · intro hlen3
    rcases l with _ | ⟨a, _ | ⟨b, _ | ⟨c', t⟩⟩⟩
    · exact absurd rfl hne
    · exfalso; simp at hlen3
    · exfalso; simp at hlen3
    · have hane : a ≠ ' ' := by
        rcases hmem a (by simp) with rfl | rfl <;> decide
      rw [parseKeyValue, parseKVAux_no_space a (b :: c' :: t) hane,
        parseCore_fst]
      have hs1 : strip1 (a :: b :: c' :: t) = (a :: b :: c' :: t).dropLast :=
        strip1_crlf_getLast _ (by simp) hmem
      have hmem' : ∀ x ∈ (a :: b :: c' :: t).dropLast, x = '\r' ∨ x = '\n' :=
        fun x hx => hmem x ((List.dropLast_sublist _).subset hx)
      have hne1 : (a :: b :: c' :: t).dropLast ≠ [] := by
        rw [show (a :: b :: c' :: t).dropLast = a :: (b :: c' :: t).dropLast
          from rfl]
        simp
      have hs2 : strip1 ((a :: b :: c' :: t).dropLast) =
          (a :: b :: c' :: t).dropLast.dropLast :=
        strip1_crlf_getLast _ hne1 hmem'
      have hshape : strip2 (a :: b :: c' :: t) =
          a :: ((b :: c' :: t).dropLast).dropLast := by
        rw [strip2, hs1, hs2]
        rfl
      rw [hshape]
      rcases hmem a (by simp) with rfl | rfl <;>
      · simp only [keyLoop]
        rw [if_neg (by decide), if_neg (by decide), if_neg (by decide)]

/-- Witness for C10: the flag is set on a lone CR, and a CR LF line yields
`KREG_KEY_EMPTY` at offset 1. -/
theorem parse_totality_characterization_witness :
    (parseKVAux ['\r']).2 = true ∧
    parseKeyValue ['\r', '\n'] = .err KREG_KEY_EMPTY 1 :=
  ⟨(parse_totality_characterization.1 ['\r']).2
      (Or.inr ⟨'\r', rfl, Or.inl rfl⟩),
    (parse_totality_characterization.2.1 ['\r', '\n'] (by decide)
      (by decide)).1 (by decide)⟩

/-- Counterexample to C10 as stated: the strip's out-of-range branch IS
reachable (on the empty string and on a lone LF), and an all-CR/LF string of
three characters returns `KREG_KEY_INVALID`, not `KREG_KEY_EMPTY`. -/
theorem parse_oob_strip_reachable_cex :
    (parseKVAux []).2 = true ∧ (parseKVAux ['\n']).2 = true ∧
    parseKeyValue ['\n', '\n', '\n'] = .err KREG_KEY_INVALID 1 := by
  refine ⟨by decide, by decide, by decide⟩

/-- Reduction of the dispatcher on a message of at least three bytes: the
first three bytes are lowercased for the command comparison, the remainder
`r` is passed to the registry in original case. -/
theorem processClientMessage_long (au : Bool) (s : Store) (a b c : Char)
    (r : List Char) :
    processClientMessage au s (a :: b :: c :: r) =
      if [tolowerC a, tolowerC b, tolowerC c] = ['p', 'u', 't'] then
        (if (kregPutKey au s r).1 = KREG_OK then
          (some (['['] ++ renderVal (kregPutKey au s r).2.2.1 ++
            "] <= [".toList ++ renderVal (kregPutKey au s r).2.2.2 ++
            "]\n".toList), (kregPutKey au s r).2.1, false)
        else (some (errMsgFor (kregPutKey au s r).2.2.1 (kregPutKey au s r).1),
          (kregPutKey au s r).2.1, false))
      else if [tolowerC a, tolowerC b, tolowerC c] = ['g', 'e', 't'] then
        (if (kregGetKey s r).1 = KREG_OK then
          (some (['['] ++ renderVal (kregGetKey s r).2.1 ++ "] => [".toList ++
            renderVal (kregGetKey s r).2.2 ++ "]\n".toList), s, false)
        else (some (errMsgFor (kregGetKey s r).2.1 (kregGetKey s r).1), s,
          false))
      else if [tolowerC a, tolowerC b, tolowerC c] = ['b', 'y', 'e'] then
        (none, s, true)
      else (some ("???\n".toList), s, false) := by
  have hlen : (3 ≤ (a :: b :: c :: r).length) = True :=
    eq_true (by simp [List.length_cons])
  simp only [processClientMessage, hlen, if_true]
  rfl

/-- Claim C8: per received message the dispatcher writes exactly one
response, except that a message whose first three bytes spell `bye`
case-insensitively writes nothing and signals closure; any message shorter
than three bytes or whose lowercased first three bytes are none of
`get`/`put`/`bye` yields exactly the response line `???`. -/
theorem dispatcher_single_response (au : Bool) (s : Store) (m : List Char) :
    (low3 m = ['b', 'y', 'e'] → processClientMessage au s m = (none, s, true)) ∧
    (low3 m ≠ ['b', 'y', 'e'] →
      ∃ r s', processClientMessage au s m = (some r, s', false)) ∧
    ((m.length < 3 ∨ (low3 m ≠ ['g', 'e', 't'] ∧ low3 m ≠ ['p', 'u', 't'] ∧
        low3 m ≠ ['b', 'y', 'e'])) →
      processClientMessage au s m = (some ("???\n".toList), s, false)) := by
  rcases m with _ | ⟨a, _ | ⟨b, _ | ⟨c, r⟩⟩⟩
  · exact ⟨fun h => absurd h (by decide), fun _ => ⟨_, _, rfl⟩, fun _ => rfl⟩
  · have hproc : processClientMessage au s [a] =
        (some ("???\n".toList), s, false) := by
      simp [processClientMessage]
    exact ⟨fun h => absurd h (by simp [low3]), fun _ => ⟨_, _, hproc⟩,
      fun _ => hproc⟩
  · have hproc : processClientMessage au s [a, b] =
        (some ("???\n".toList), s, false) := by
      simp [processClientMessage]
    exact ⟨fun h => absurd h (by simp [low3]), fun _ => ⟨_, _, hproc⟩,
      fun _ => hproc⟩
  · have hexp := processClientMessage_long au s a b c r
    have hlow : low3 (a :: b :: c :: r) =
        [tolowerC a, tolowerC b, tolowerC c] := by
      simp [low3]
    refine ⟨?_, ?_, ?_⟩
    · intro hbye
      rw [hlow] at hbye
      rw [hexp, if_neg (by rw [hbye]; decide), if_neg (by rw [hbye]; decide),
        if_pos hbye]
    · intro hnb
      rw [hlow] at hnb
      rw [hexp]
      by_cases hput : [tolowerC a, tolowerC b, tolowerC c] = ['p', 'u', 't']
      · rw [if_pos hput]
        by_cases hok : (kregPutKey au s r).1 = KREG_OK
        · rw [if_pos hok]
          exact ⟨_, _, rfl⟩
        · rw [if_neg hok]
          exact ⟨_, _, rfl⟩
      · rw [if_neg hput]
        by_cases hget : [tolowerC a, tolowerC b, tolowerC c] = ['g', 'e', 't']
        · rw [if_pos hget]
          by_cases hok : (kregGetKey s r).1 = KREG_OK
          · rw [if_pos hok]
            exact ⟨_, _, rfl⟩
          · rw [if_neg hok]
            exact ⟨_, _, rfl⟩
        · rw [if_neg hget, if_neg hnb]
          exact ⟨_, _, rfl⟩
    · intro hcond
      rcases hcond with hlt | ⟨hg, hp, hb⟩
      · exfalso
        simp only [List.length_cons] at hlt
        omega
      · rw [hlow] at hg hp hb
        rw [hexp, if_neg hp, if_neg hg, if_neg hb]

/-- Witness for C8 at the messages `BYE` and `xy`. -/
theorem dispatcher_single_response_witness :
    processClientMessage false [] ['B', 'Y', 'E'] = (none, [], true) ∧
    processClientMessage false [] ['x', 'y'] =
      (some ("???\n".toList), [], false) :=
  ⟨(dispatcher_single_response false [] ['B', 'Y', 'E']).1 (by decide),
    (dispatcher_single_response false [] ['x', 'y']).2.2
      (Or.inl (by decide))⟩

/-- Claim C9 (evaluations): PUT and GET success responses are
`[key] <= [value]` and `[key] => [value]` for nonempty values, but a pair
stored with an omitted value keeps a NULL value pointer, and the response
passes that NULL to `sprintf`'s `%s` -- rendered `(null)` by glibc,
undefined by ISO C -- instead of an empty `[]`. -/
theorem put_empty_value_null_render :
    processClientMessage false [] "put k".toList =
      (some "[k] <= [(null)]\n".toList, [(['k'], none)], false) ∧
    processClientMessage false [(['k'], none)] "get k".toList =
      (some "[k] => [(null)]\n".toList, [(['k'], none)], false) ∧
    processClientMessage false [] "put k v".toList =
      (some "[k] <= [v]\n".toList, [(['k'], some ['v'])], false) ∧
    processClientMessage false [(['k'], some ['v'])] "get k".toList =
      (some "[k] => [v]\n".toList, [(['k'], some ['v'])], false) := by
  refine ⟨by decide, by decide, by decide, by decide⟩
